/-
Verification of the tool-call scheduling and streaming-resilience layer of
the NeuroUI desktop chat client.

The Lean definitions below are a shallow embedding of the TypeScript source:

  * ToolCallGuard                 -- src/agent/gemini/cli/streamResilience.ts
  * processGeminiStreamEvents,
    normalizeToolParams,
    processGeminiFunctionCalls,
    handleCompletedTools,
    mergePartListUnions           -- src/agent/gemini/utils.ts
  * GeminiAgent.handleMessage and
    the onAllToolCallsComplete
    scheduler callback            -- src/agent/gemini/index.ts
  * fallbackModelHandler          -- src/agent/gemini/cli/config.ts

JavaScript sets are modelled as Finset String, JavaScript objects as
association lists, optional / possibly-undefined values as Option, and
thrown exceptions as Except.  External collaborators (the error formatter,
the tool-execution primitive, the per-attempt model streams, the api-key
manager) are parameters of the corresponding definitions.
-/
import Mathlib

namespace NeuroUI

/-! ## ToolCallGuard (streamResilience.ts)

The guard keeps two sets of call ids.  Each method is a pure state
transformer on this record. -/

structure GuardState where
  protectedCallIds : Finset String
  completedCallIds : Finset String
deriving DecidableEq

namespace GuardState

/-- Initial state: both sets empty (fresh ToolCallGuard instance). -/
def init : GuardState := ⟨∅, ∅⟩

/-- protect(callId): this.protectedCallIds.add(callId) -/
def protect (s : GuardState) (callId : String) : GuardState :=
  { s with protectedCallIds := insert callId s.protectedCallIds }

/-- isProtected(callId): this.protectedCallIds.has(callId) -/
def isProtected (s : GuardState) (callId : String) : Bool :=
  callId ∈ s.protectedCallIds

/-- complete(callId): protectedCallIds.delete(callId); completedCallIds.add(callId) -/
def complete (s : GuardState) (callId : String) : GuardState :=
  { s with
    protectedCallIds := s.protectedCallIds.erase callId
    completedCallIds := insert callId s.completedCallIds }

/-- isCompleted(callId): this.completedCallIds.has(callId) -/
def isCompleted (s : GuardState) (callId : String) : Bool :=
  callId ∈ s.completedCallIds

/-- unprotect(callId): this.protectedCallIds.delete(callId) -/
def unprotect (s : GuardState) (callId : String) : GuardState :=
  { s with protectedCallIds := s.protectedCallIds.erase callId }

/-- clear(): empties both sets. -/
def clear (_s : GuardState) : GuardState := ⟨∅, ∅⟩

end GuardState

/-- One ToolCallGuard operation (the four mutating methods). -/
inductive GuardOp where
  | protect (callId : String)
  | complete (callId : String)
  | unprotect (callId : String)
  | clear
deriving DecidableEq

/-- Apply one operation to a guard state. -/
def guardStep (s : GuardState) : GuardOp → GuardState
  | .protect id => s.protect id
  | .complete id => s.complete id
  | .unprotect id => s.unprotect id
  | .clear => s.clear

/-- Run a sequence of operations from a given state. -/
def guardRun (s : GuardState) (ops : List GuardOp) : GuardState :=
  ops.foldl guardStep s

/-- A callId is in at most one of the two sets. -/
def guardDisjoint (s : GuardState) : Prop :=
  ∀ id : String, ¬(s.isProtected id = true ∧ s.isCompleted id = true)

/-- Checks, along the run, that protect is only ever applied to a callId
that is not currently completed (the usage discipline under which the
exclusivity invariant of the two sets is actually maintained). -/
def protectsOnlyUncompleted (s : GuardState) : List GuardOp → Bool
  | [] => true
  | op :: rest =>
    (match op with
     | .protect id => !(s.isCompleted id)
     | _ => true) && protectsOnlyUncompleted (guardStep s op) rest

/-! ## Stream event processor (utils.ts, processGeminiStreamEvents)

Event payloads that the processor does not inspect are opaque Nat tokens.
The provider-specific error formatter (parseAndFormatApiError, an external
collaborator) is passed in as a function argument, together with the auth
type read from config.getContentGeneratorConfig().authType. -/

/-- Auth modes (AuthType of the agent-core library); the processor only
threads this value into the error formatter. -/
inductive AuthType where
  | useGemini
  | useVertexAI
  | loginWithGoogle
  | useOpenAI
deriving DecidableEq

/-- usageMetadata payload of a Finished event. -/
structure UsageMetadata where
  promptTokenCount : Nat
  candidatesTokenCount : Nat
  totalTokenCount : Nat
  cachedContentTokenCount : Nat
deriving DecidableEq

/-- value payload of a Finished event; event.value itself may be undefined,
and event.value.usageMetadata may be undefined. -/
structure FinishedValue where
  usageMetadata : Option UsageMetadata
deriving DecidableEq

/-- The tagged stream events of the agent-core event vocabulary
(ServerGeminiEventType).  The extra member otherTag stands for any event
type not yet known to the switch statement (its default branch). -/
inductive StreamEvent where
  | thought (v : Nat)
  | content (v : Nat)
  | toolCallRequest (v : Nat)
  | error (e : Nat)
  | finished (value : Option FinishedValue)
  | chatCompressed
  | userCancelled
  | toolCallConfirmation
  | toolCallResponse
  | maxSessionTurns
  | loopDetected
  | otherTag (t : Nat)
deriving DecidableEq

/-- What the onStreamEvent sink receives: the event type together with the
data field actually passed (for Error events, the formatted error). -/
inductive SinkEvent where
  | thought (v : Nat)
  | content (v : Nat)
  | toolCallRequest (v : Nat)
  | errorFormatted (d : Nat)
  | finished (value : Option FinishedValue)
deriving DecidableEq

inductive StreamProcessingStatus where
  | Completed
  | UserCancelled
  | Error
deriving DecidableEq

structure StreamProcessingResult where
  status : StreamProcessingStatus
  usageMetadata : Option UsageMetadata
deriving DecidableEq

/-- The sink invocations one event produces (one case of the switch):
Thought, Content, ToolCallRequest and Finished are forwarded verbatim,
Error is forwarded after the formatter, the six bookkeeping cases and the
default case emit nothing. -/
def streamEmit (fmt : Nat → AuthType → Nat) (authType : AuthType) :
    StreamEvent → List SinkEvent
  | .thought v => [.thought v]
  | .content v => [.content v]
  | .toolCallRequest v => [.toolCallRequest v]
  | .error e => [.errorFormatted (fmt e authType)]
  | .finished value => [.finished value]
  | .chatCompressed => []
  | .userCancelled => []
  | .toolCallConfirmation => []
  | .toolCallResponse => []
  | .maxSessionTurns => []
  | .loopDetected => []
  | .otherTag _ => []

/-- The for-await loop: threads capturedUsageMetadata (every Finished event
overwrites it with event.value?.usageMetadata) and concatenates the sink
invocations. -/
def streamLoop (fmt : Nat → AuthType → Nat) (authType : AuthType) :
    List StreamEvent → Option UsageMetadata → List SinkEvent × Option UsageMetadata
  | [], captured => ([], captured)
  | e :: rest, captured =>
    let captured' := match e with
      | .finished value => value.bind (·.usageMetadata)
      | _ => captured
    let (tail, final) := streamLoop fmt authType rest captured'
    (streamEmit fmt authType e ++ tail, final)

/-- processGeminiStreamEvents: consumes the finite stream and returns the
sink-invocation trace together with the StreamProcessingResult. -/
def processGeminiStreamEvents (fmt : Nat → AuthType → Nat) (authType : AuthType)
    (stream : List StreamEvent) : List SinkEvent × StreamProcessingResult :=
  let (trace, captured) := streamLoop fmt authType stream none
  (trace, ⟨.Completed, captured⟩)

/-! ## normalizeToolParams (utils.ts)

JavaScript objects are association lists over String keys; the function
never inspects the values, so the value type is a parameter. -/

/-- args[k] for an association list (first binding wins, as in a JS object
whose keys are unique). -/
def jsGet {V : Type} (o : List (String × V)) (k : String) : Option V :=
  (o.find? (fun p => p.1 = k)).map (·.2)

/-- k in args. -/
def jsHas {V : Type} (o : List (String × V)) (k : String) : Bool :=
  (o.find? (fun p => p.1 = k)).isSome

/-- o[k] = v: update the existing binding in place, else append a new one
(JS property-assignment order semantics). -/
def jsSet {V : Type} (o : List (String × V)) (k : String) (v : V) : List (String × V) :=
  if jsHas o k then o.map (fun p => if p.1 = k then (k, v) else p)
  else o ++ [(k, v)]

/-- delete o[k]. -/
def jsDel {V : Type} (o : List (String × V)) (k : String) : List (String × V) :=
  o.filter (fun p => ¬(p.1 = k))

/-- The fixed set of file-operation tool names. -/
def fileTools : List String :=
  ["ReadFileTool", "WriteFileTool", "EditTool", "read_file", "write_file", "edit"]

/-- normalizeToolParams(toolName, args): for the file tools, if args has a
path key and no file_path key, copy path into file_path and delete path;
otherwise return the (copied) args unchanged. -/
def normalizeToolParams {V : Type} (toolName : String)
    (args : List (String × V)) : List (String × V) :=
  if fileTools.contains toolName && jsHas args "path" && !jsHas args "file_path" then
    match jsGet args "path" with
    | some v => jsDel (jsSet args "file_path" v) "path"
    | none => args
  else args

/-! ## Completed-tool response merger (utils.ts, handleCompletedTools)

A response part (PartUnion of the model API) is either a plain object with
a text field, a raw JS string, some other non-null object (opaque token),
or null. -/

inductive PartVal where
  | textObj (s : String)
  | str (s : String)
  | obj (v : Nat)
  | nullv
deriving DecidableEq

/-- responseParts has type Part or Part[]; entries of the array case are
never themselves arrays. -/
inductive RespParts where
  | single (p : PartVal)
  | list (ps : List PartVal)
deriving DecidableEq

/-- Scheduler-reported tool call status values. -/
inductive ToolCallStatus where
  | success
  | error
  | cancelled
  | executing
  | awaitingApproval
  | scheduled
  | validating
deriving DecidableEq

structure TCRequest where
  callId : String
  name : String
  isClientInitiated : Bool
  promptId : String
deriving DecidableEq

structure TCResponse where
  responseParts : Option RespParts
deriving DecidableEq

structure CompletedToolCall where
  request : TCRequest
  status : ToolCallStatus
  response : Option TCResponse
deriving DecidableEq

/-- tc.status is a terminal state. -/
def isTerminal (st : ToolCallStatus) : Bool :=
  st = .success || st = .error || st = .cancelled

/-- tc.response?.responseParts. -/
def respPartsOf (tc : CompletedToolCall) : Option RespParts :=
  tc.response.bind (·.responseParts)

/-- The filter applied first by handleCompletedTools: terminal state and
responseParts defined. -/
def readyToSubmit (tc : CompletedToolCall) : Bool :=
  isTerminal tc.status && (respPartsOf tc).isSome

/-- One-level flatten of a responseParts value (the behaviour of flatMap
and of spreading into a result array). -/
def respPartsToList : RespParts → List PartVal
  | .single p => [p]
  | .list ps => ps

/-- respPartsToList through the Option; the callers below only apply it to
calls that passed the responseParts-defined filter, where it is some. -/
def respPartsListOf (tc : CompletedToolCall) : List PartVal :=
  ((respPartsOf tc).getD (.list [])) |> respPartsToList

/-- mergePartListUnions: push array items element-wise, keep any other item
as-is. -/
def mergePartListUnions (list : List RespParts) : List PartVal :=
  list.flatMap respPartsToList

/-- The body of the all-cancelled history loop: an Array.isArray entry is
taken as-is (cannot occur after the one-level flatMap), a string entry is
wrapped as a single text part, anything else becomes a one-element list. -/
def wrapHistoryEntry : PartVal → List PartVal
  | .str s => [.textObj s]
  | p => [p]

/-- One addHistory({role, parts}) invocation. -/
structure HistoryItem where
  role : String
  parts : List PartVal
deriving DecidableEq

/-- The observable outcome of one handleCompletedTools invocation: the
return value (undefined = none), the addHistory invocations made on the
gemini client, and whether performMemoryRefresh was invoked. -/
structure MergerResult where
  returned : Option (List PartVal)
  historyAppends : List HistoryItem
  memoryRefreshed : Bool
deriving DecidableEq

/-- The non-client-initiated terminal calls with defined responseParts of a
batch (the geminiTools list of the source). -/
def geminiToolsOf (calls : List CompletedToolCall) : List CompletedToolCall :=
  (calls.filter readyToSubmit).filter (fun t => !t.request.isClientInitiated)

/-- handleCompletedTools(completedToolCallsFromScheduler, geminiClient,
performMemoryRefresh).  clientPresent models geminiClient being non-null;
the addHistory calls only happen when it is. -/
def handleCompletedTools (calls : List CompletedToolCall)
    (clientPresent : Bool) : MergerResult :=
  let completedAndReadyToSubmitTools := calls.filter readyToSubmit
  let newSuccessfulMemorySaves := completedAndReadyToSubmitTools.filter
    (fun t => t.request.name = "save_memory" && t.status = .success)
  let memoryRefreshed := decide (0 < newSuccessfulMemorySaves.length)
  let geminiTools := completedAndReadyToSubmitTools.filter
    (fun t => !t.request.isClientInitiated)
  if geminiTools.length = 0 then
    ⟨none, [], memoryRefreshed⟩
  else
    let allToolsCancelled := geminiTools.all (fun tc => tc.status = .cancelled)
    if allToolsCancelled then
      let responsesToAdd := geminiTools.flatMap respPartsListOf
      let historyAppends :=
        if clientPresent then
          responsesToAdd.map (fun r => HistoryItem.mk "user" (wrapHistoryEntry r))
        else []
      ⟨none, historyAppends, memoryRefreshed⟩
    else
      let responsesToSend := geminiTools.map
        (fun tc => (respPartsOf tc).getD (.list []))
      ⟨some (mergePartListUnions responsesToSend), [], memoryRefreshed⟩

/-! ## onAllToolCallsComplete scheduler callback (index.ts)

The callback computes handleCompletedTools and then reads
response.length; when handleCompletedTools returned undefined that member
access throws a TypeError, which the try/catch turns into an error UI
event.  Reading a member of undefined is modelled with Except. -/

/-- The message of the TypeError raised by reading length of undefined. -/
def jsUndefinedLengthMsg : String :=
  "Cannot read properties of undefined (reading length)"

/-- response.length where response may be undefined. -/
def jsLengthOfOption (o : Option (List PartVal)) : Except String Nat :=
  match o with
  | some l => .ok l.length
  | none => .error jsUndefinedLengthMsg

/-- UI stream events this callback can emit. -/
inductive CallbackUiEvent where
  | errorEv (data : String)
deriving DecidableEq

/-- The observable outcome of one onAllToolCallsComplete invocation: the UI
events emitted, the continuation submitted via submitQuery (response parts
and the prompt id it is tagged with), and the merger side effects. -/
structure CallbackOutcome where
  events : List CallbackUiEvent
  continuation : Option (List PartVal × String)
  historyAppends : List HistoryItem
  memoryRefreshed : Bool
deriving DecidableEq

/-- The onAllToolCallsComplete callback passed to CoreToolScheduler. -/
def onAllToolCallsComplete (calls : List CompletedToolCall)
    (clientPresent : Bool) : CallbackOutcome :=
  if 0 < calls.length then
    let m := handleCompletedTools calls clientPresent
    match jsLengthOfOption m.returned with
    | .error msg =>
      ⟨[.errorEv ("handleCompletedTools error: " ++ msg)], none,
        m.historyAppends, m.memoryRefreshed⟩
    | .ok len =>
      if 0 < len then
        match (geminiToolsOf calls).head? with
        | some t0 =>
          ⟨[], some (m.returned.getD [], t0.request.promptId),
            m.historyAppends, m.memoryRefreshed⟩
        | none =>
          -- geminiTools[0].request on an empty list throws; unreachable
          -- because a non-empty return implies geminiTools is non-empty.
          ⟨[.errorEv ("handleCompletedTools error: " ++
              "Cannot read properties of undefined (reading request)")], none,
            m.historyAppends, m.memoryRefreshed⟩
      else ⟨[], none, m.historyAppends, m.memoryRefreshed⟩
  else ⟨[], none, [], false⟩

/-! ## Sequential tool dispatch (utils.ts, processGeminiFunctionCalls)

The external execution primitive executeToolCall is a function argument;
argument values of a call are opaque Nat tokens.  Date.now(), used only
for the callId fallback, is the parameter now. -/

/-- A function call as read off the stream (callId and args may be
absent). -/
structure FunctionCall where
  callId : Option String
  name : String
  args : Option (List (String × Nat))
  prompt_id : String
deriving DecidableEq

/-- The requestInfo record built for each call. -/
structure ReqInfo where
  callId : String
  name : String
  args : List (String × Nat)
  isClientInitiated : Bool
  prompt_id : String
deriving DecidableEq

/-- callId fallback plus parameter-name normalization. -/
def mkRequestInfo (now : Nat) (fc : FunctionCall) : ReqInfo :=
  { callId := fc.callId.getD (fc.name ++ "-" ++ toString now)
    name := fc.name
    args := normalizeToolParams fc.name (fc.args.getD [])
    isClientInitiated := false
    prompt_id := fc.prompt_id }

structure JsError where
  message : String
deriving DecidableEq

/-- The response body of the execution primitive. -/
structure ExecResponseBody where
  error : Option JsError
  resultDisplay : Option String
  responseParts : Option RespParts
deriving DecidableEq

structure ExecResponse where
  response : Option ExecResponseBody
deriving DecidableEq

/-- a || b for a possibly-undefined string a (the empty string is falsy). -/
def jsOrString (a : Option String) (b : String) : String :=
  match a with
  | some s => if s = "" then b else s
  | none => b

/-- The message of the tool_call_error progress event. -/
def execErrorMsg (name : String) (body : ExecResponseBody) (err : JsError) : String :=
  "Error executing tool " ++ name ++ ": " ++ jsOrString body.resultDisplay err.message

/-- Progress events reported through onProgress. -/
inductive ProgressEvent where
  | toolCallRequest (r : ReqInfo)
  | toolCallError (r : ReqInfo) (error : String)
  | toolCallFinishCall (r : ReqInfo)
  | toolCallFinishAll (parts : List PartVal)
deriving DecidableEq

/-- Accumulation of one response into toolResponseParts: strings are
wrapped as text parts, falsy parts are skipped, other parts kept. -/
def accumulateParts (ps : List PartVal) : List PartVal :=
  ps.filterMap (fun p =>
    match p with
    | .str s => some (.textObj s)
    | .nullv => none
    | p => some p)

/-- The for-of loop of processGeminiFunctionCalls, threading the
toolResponseParts accumulator.  Returns the progress-event trace and the
list of requestInfo records handed to the execution primitive. -/
def dispatchLoop (exec : ReqInfo → ExecResponse) (now : Nat) :
    List FunctionCall → List PartVal → List ProgressEvent × List ReqInfo
  | [], acc => ([.toolCallFinishAll acc], [])
  | fc :: rest, acc =>
    let requestInfo := mkRequestInfo now fc
    let toolResponse := exec requestInfo
    match toolResponse.response with
    | some body =>
      match body.error with
      | some err =>
        ([.toolCallRequest requestInfo,
          .toolCallError requestInfo (execErrorMsg fc.name body err)],
         [requestInfo])
      | none =>
        let newParts := match body.responseParts with
          | some rp => accumulateParts (respPartsToList rp)
          | none => []
        let tail := dispatchLoop exec now rest (acc ++ newParts)
        (.toolCallRequest requestInfo :: .toolCallFinishCall requestInfo :: tail.1,
         requestInfo :: tail.2)
    | none =>
      let tail := dispatchLoop exec now rest acc
      (.toolCallRequest requestInfo :: .toolCallFinishCall requestInfo :: tail.1,
       requestInfo :: tail.2)

/-- processGeminiFunctionCalls(config, functionCalls, onProgress). -/
def processGeminiFunctionCalls (exec : ReqInfo → ExecResponse) (now : Nat)
    (functionCalls : List FunctionCall) : List ProgressEvent × List ReqInfo :=
  dispatchLoop exec now functionCalls []

/-- The execution result of this call carries an error. -/
def hasExecError (exec : ReqInfo → ExecResponse) (now : Nat) (fc : FunctionCall) : Bool :=
  ((exec (mkRequestInfo now fc)).response.bind (·.error)).isSome

/-- The two progress events of a successfully executed call. -/
def successEvents (exec : ReqInfo → ExecResponse) (now : Nat) (fc : FunctionCall) :
    List ProgressEvent :=
  let _ := exec
  [.toolCallRequest (mkRequestInfo now fc), .toolCallFinishCall (mkRequestInfo now fc)]

/-- The parts a successfully executed call contributes to the
accumulator. -/
def callNewParts (exec : ReqInfo → ExecResponse) (now : Nat) (fc : FunctionCall) :
    List PartVal :=
  match (exec (mkRequestInfo now fc)).response with
  | some body =>
    match body.responseParts with
    | some rp => accumulateParts (respPartsToList rp)
    | none => []
  | none => []

/-! ## Auto-retry on invalid stream (index.ts, handleMessage)

handleMessage is modelled per sink-level message: what each stream attempt
delivers to the onStreamEvent callback of processGeminiStreamEvents is a
list of tagged messages, indexed by the attempt number (each retry
requests a fresh stream).  The guard protection, the retry requests and
the scheduled batch are recorded in the trace. -/

def MAX_INVALID_STREAM_RETRIES : Nat := 2

def RETRY_DELAY_MS : Nat := 1000

/-- A sink-level message of one stream attempt. -/
inductive HMsg where
  | toolCallRequest (callId : String)
  | invalidStream (retryable : Option Bool)
  | otherEvent (tag : Nat)
deriving DecidableEq

/-- UI events relayed by the agent during a turn. -/
inductive AgentUiEvent where
  | start
  | errorEv (data : String)
  | forwarded (tag : Nat)
  | finish
deriving DecidableEq

/-- The retry-notice message data (retryCount + 1 over the budget). -/
def noticeMsg (retryCount : Nat) : String :=
  "잘못된 응답 스트림이 감지되었습니다. 재시도 중... (" ++ toString (retryCount + 1)
    ++ "/" ++ toString MAX_INVALID_STREAM_RETRIES ++ ")"

/-- One fresh-stream request of the retry path. -/
structure RetryAttempt where
  delayMs : Nat
  promptId : String
deriving DecidableEq

/-- One pass of the sink over the messages of one attempt: collected tool
call ids (protected in the guard), emitted UI events, and whether an
invalid_stream message was seen. -/
def sinkPass (retryCount : Nat) : List HMsg → List AgentUiEvent × List String × Bool
  | [] => ([], [], false)
  | m :: rest =>
    let tail := sinkPass retryCount rest
    match m with
    | .toolCallRequest id => (tail.1, id :: tail.2.1, tail.2.2)
    | .invalidStream retryable =>
      ((if retryable.getD false && decide (retryCount < MAX_INVALID_STREAM_RETRIES)
          then [AgentUiEvent.errorEv (noticeMsg retryCount)] else []) ++ tail.1,
       tail.2.1, true)
    | .otherEvent t => (AgentUiEvent.forwarded t :: tail.1, tail.2.1, tail.2.2)

/-- The observable trace of one handleMessage call (including its
recursive retries). -/
structure HandleMessageTrace where
  uiEvents : List AgentUiEvent
  protectedIds : List String
  retries : List RetryAttempt
  scheduledBatches : List (List String)
  finalAttempt : Nat
deriving DecidableEq

/-- handleMessage(stream, msg_id, abortController, query, retryCount,
prompt_id): processes the attempt, and if an invalid stream was detected,
the budget is not exhausted, the query is present and the signal is not
aborted, waits RETRY_DELAY_MS, requests a fresh stream for the same
prompt id and recurses with retryCount + 1; otherwise it schedules any
collected tool calls and resolves. -/
def handleMessage (attempts : Nat → List HMsg) (queryPresent : Bool)
    (aborted : Bool) (promptId : String) (retryCount : Nat) : HandleMessageTrace :=
  if h : (sinkPass retryCount (attempts retryCount)).2.2 = true ∧
      retryCount < MAX_INVALID_STREAM_RETRIES ∧
      queryPresent = true ∧ aborted = false then
    ⟨(sinkPass retryCount (attempts retryCount)).1 ++
        (handleMessage attempts queryPresent aborted promptId (retryCount + 1)).uiEvents,
     (sinkPass retryCount (attempts retryCount)).2.1 ++
        (handleMessage attempts queryPresent aborted promptId (retryCount + 1)).protectedIds,
     ⟨RETRY_DELAY_MS, promptId⟩ ::
        (handleMessage attempts queryPresent aborted promptId (retryCount + 1)).retries,
     (handleMessage attempts queryPresent aborted promptId (retryCount + 1)).scheduledBatches,
     (handleMessage attempts queryPresent aborted promptId (retryCount + 1)).finalAttempt⟩
  else
    ⟨(sinkPass retryCount (attempts retryCount)).1,
     (sinkPass retryCount (attempts retryCount)).2.1, [],
     if (sinkPass retryCount (attempts retryCount)).2.1.isEmpty then []
     else [(sinkPass retryCount (attempts retryCount)).2.1], retryCount⟩
termination_by MAX_INVALID_STREAM_RETRIES - retryCount
decreasing_by
  have := h.2.1
  omega

/-- The UI events of one whole submitQuery turn: the start event, the
handleMessage events, then the finish event emitted when the
handleMessage promise resolves. -/
def submitQueryEvents (attempts : Nat → List HMsg) (queryPresent : Bool)
    (aborted : Bool) (promptId : String) : List AgentUiEvent :=
  AgentUiEvent.start ::
    ((handleMessage attempts queryPresent aborted promptId 0).uiEvents
      ++ [AgentUiEvent.finish])

/-- The attempt delivered an invalid-stream signal. -/
def hasInvalidSignal (msgs : List HMsg) : Bool :=
  msgs.any (fun m => match m with | .invalidStream _ => true | _ => false)

/-! ## Fallback-model handler (cli/config.ts)

The api-key manager is an external collaborator; its two observable
method calls may also throw, which is modelled with Except. -/

/-- FallbackIntent values of the agent-core library. -/
inductive FallbackIntent where
  | retry_always
  | retry_once
  | retry_later
  | upgrade
  | stopIntent
deriving DecidableEq

instance {ε α : Type} [DecidableEq ε] [DecidableEq α] : DecidableEq (Except ε α) :=
  fun x y =>
    match x, y with
    | .ok a, .ok b =>
      if h : a = b then isTrue (congrArg Except.ok h)
      else isFalse (fun hh => h (Except.ok.inj hh))
    | .error a, .error b =>
      if h : a = b then isTrue (congrArg Except.error h)
      else isFalse (fun hh => h (Except.error.inj hh))
    | .ok _, .error _ => isFalse (fun hh => Except.noConfusion hh)
    | .error _, .ok _ => isFalse (fun hh => Except.noConfusion hh)

/-- The view of the api-key manager the handler consumes: the results of
hasMultipleKeys() and rotateKey(), either a value or a thrown error. -/
structure ApiKeyManagerView where
  hasMultipleKeysResult : Except String Bool
  rotateKeyResult : Except String Bool
deriving DecidableEq

/-- The view of getCurrentGeminiAgent(): null, or an agent whose
getApiKeyManager() may itself be null. -/
structure AgentView where
  apiKeyManager : Option ApiKeyManagerView
deriving DecidableEq

/-- fallbackModelHandler(currentModel, fallbackModel, error).  The first
component is the returned intent, the second records whether rotateKey was
invoked.  Any thrown error is caught and mapped to retry_once. -/
def fallbackModelHandler (currentAgent : Option AgentView) : FallbackIntent × Bool :=
  match currentAgent.bind (·.apiKeyManager) with
  | none => (.retry_once, false)
  | some m =>
    match m.hasMultipleKeysResult with
    | .error _ => (.retry_once, false)
    | .ok false => (.retry_once, false)
    | .ok true =>
      match m.rotateKeyResult with
      | .error _ => (.retry_once, true)
      | .ok true => (.retry_once, true)
      | .ok false => (.stopIntent, true)

/-! ## Theorems -/

/-- One guard operation preserves the exclusivity of the two sets,
provided protect is not applied to a currently completed callId. -/
lemma guardStep_preserves_disjoint (s : GuardState) (op : GuardOp)
    (hdisj : guardDisjoint s)
    (hop : (match op with
            | .protect id => !(s.isCompleted id)
            | _ => true) = true) :
    guardDisjoint (guardStep s op) := by
  intro id0
  cases op with
  | protect id =>
    simp only [guardStep, GuardState.protect, GuardState.isProtected,
      GuardState.isCompleted, Finset.mem_insert, decide_eq_true_eq] at *
    rintro ⟨h1 | h1, h2⟩
    · subst h1
      simp only [Bool.not_eq_true', decide_eq_false_iff_not] at hop
      exact hop h2
    · exact hdisj id0 (by simp only [GuardState.isProtected, GuardState.isCompleted,
        decide_eq_true_eq]; exact ⟨h1, h2⟩)
  | complete id =>
    simp only [guardStep, GuardState.complete, GuardState.isProtected,
      GuardState.isCompleted, Finset.mem_insert, Finset.mem_erase,
      decide_eq_true_eq] at *
    rintro ⟨⟨hne, h1⟩, h2 | h2⟩
    · exact hne h2
    · exact hdisj id0 (by simp only [GuardState.isProtected, GuardState.isCompleted,
        decide_eq_true_eq]; exact ⟨h1, h2⟩)
  | unprotect id =>
    simp only [guardStep, GuardState.unprotect, GuardState.isProtected,
      GuardState.isCompleted, Finset.mem_erase, decide_eq_true_eq] at *
    rintro ⟨⟨_, h1⟩, h2⟩
    exact hdisj id0 (by simp only [GuardState.isProtected, GuardState.isCompleted,
      decide_eq_true_eq]; exact ⟨h1, h2⟩)
  | clear =>
    simp [guardStep, GuardState.clear, GuardState.isProtected, GuardState.isCompleted]

/-- The exclusivity invariant holds after every prefix of a run in which
protect is only applied to not-yet-completed ids. -/
lemma guardRun_take_disjoint (ops : List GuardOp) (s : GuardState)
    (hdisj : guardDisjoint s)
    (hsafe : protectsOnlyUncompleted s ops = true) (n : Nat) :
    guardDisjoint (guardRun s (ops.take n)) := by
  induction ops generalizing s n with
  | nil => simpa [guardRun] using hdisj
  | cons op rest ih =>
    cases n with
    | zero => simpa [guardRun] using hdisj
    | succ n =>
      simp only [protectsOnlyUncompleted, Bool.and_eq_true] at hsafe
      simp only [List.take_succ_cons, guardRun, List.foldl_cons]
      exact ih (guardStep s op)
        (guardStep_preserves_disjoint s op hdisj hsafe.1) hsafe.2 n

/-- C1 counterexample: re-protecting a callId after complete(id) puts it
in both sets at once, so the exclusivity invariant does not hold for every
operation sequence. -/
theorem toolCallGuard_exclusivity_counterexample :
    (GuardState.isProtected
      (guardRun GuardState.init [.protect "a", .complete "a", .protect "a"]) "a" = true) ∧
    (GuardState.isCompleted
      (guardRun GuardState.init [.protect "a", .complete "a", .protect "a"]) "a" = true) := by
  constructor <;> decide

/-- C1 (amended): for every sequence of ToolCallGuard operations in which
protect(id) is only invoked while isCompleted(id) is false, after each
operation every callId is in at most one of the two sets: isProtected(id)
and isCompleted(id) are never both true. -/
theorem toolCallGuard_exclusivity (ops : List GuardOp) (n : Nat) (id : String)
    (hsafe : protectsOnlyUncompleted GuardState.init ops = true) :
    ¬(GuardState.isProtected (guardRun GuardState.init (ops.take n)) id = true ∧
      GuardState.isCompleted (guardRun GuardState.init (ops.take n)) id = true) :=
  guardRun_take_disjoint ops GuardState.init
    (by intro i; simp [GuardState.init, GuardState.isProtected, GuardState.isCompleted])
    hsafe n id

/-- C1 witness: the protect-complete-unprotect-reprotect discipline of the
error path satisfies the side condition, and the invariant holds there. -/
theorem toolCallGuard_exclusivity_witness :
    protectsOnlyUncompleted GuardState.init
      [.protect "a", .unprotect "a", .protect "a", .complete "a"] = true ∧
    ¬(GuardState.isProtected
        (guardRun GuardState.init
          ([GuardOp.protect "a", .unprotect "a", .protect "a", .complete "a"].take 4)) "a" = true ∧
      GuardState.isCompleted
        (guardRun GuardState.init
          ([GuardOp.protect "a", .unprotect "a", .protect "a", .complete "a"].take 4)) "a" = true) :=
  ⟨by decide,
   toolCallGuard_exclusivity
     [.protect "a", .unprotect "a", .protect "a", .complete "a"] 4 "a" (by decide)⟩

/-- The sink trace of the stream loop does not depend on the usage
accumulator and is the concatenation of the per-event emissions. -/
lemma streamLoop_trace (fmt : Nat → AuthType → Nat) (authType : AuthType)
    (es : List StreamEvent) (cap : Option UsageMetadata) :
    (streamLoop fmt authType es cap).1 = es.flatMap (streamEmit fmt authType) := by
  induction es generalizing cap with
  | nil => simp [streamLoop]
  | cons e rest ih => simp [streamLoop, ih]

/-- C7: processGeminiStreamEvents never resolves early on an Error event:
the error is forwarded to the sink through the provider-specific formatter
(applied to the active auth mode) and every event after it is still
processed, the function returning once, after the whole stream. -/
theorem processGeminiStreamEvents_error_is_not_terminal
    (fmt : Nat → AuthType → Nat) (authType : AuthType)
    (es1 es2 : List StreamEvent) (e : Nat) :
    (processGeminiStreamEvents fmt authType (es1 ++ StreamEvent.error e :: es2)).1 =
      (processGeminiStreamEvents fmt authType es1).1 ++
        SinkEvent.errorFormatted (fmt e authType) ::
        (processGeminiStreamEvents fmt authType es2).1 ∧
    (processGeminiStreamEvents fmt authType (es1 ++ StreamEvent.error e :: es2)).2.status =
      StreamProcessingStatus.Completed := by
  constructor
  · simp [processGeminiStreamEvents, streamLoop_trace, streamEmit]
  · simp [processGeminiStreamEvents]

/-- C10: for every finite stream, the result status of
processGeminiStreamEvents equals Completed; the UserCancelled and Error
members of the status enum are never produced. -/
theorem processGeminiStreamEvents_status_completed
    (fmt : Nat → AuthType → Nat) (authType : AuthType) (es : List StreamEvent) :
    (processGeminiStreamEvents fmt authType es).2.status =
        StreamProcessingStatus.Completed ∧
      (processGeminiStreamEvents fmt authType es).2.status ≠
        StreamProcessingStatus.UserCancelled ∧
      (processGeminiStreamEvents fmt authType es).2.status ≠
        StreamProcessingStatus.Error := by
  refine ⟨?_, ?_, ?_⟩ <;> simp [processGeminiStreamEvents]


/-- Unfolding lookup over a cons cell. -/
lemma jsGet_cons {V : Type} (a : String × V) (t : List (String × V)) (k : String) :
    jsGet (a :: t) k = if a.1 = k then some a.2 else jsGet t k := by
  by_cases h : a.1 = k <;> simp [jsGet, List.find?_cons, h]

/-- Unfolding key membership over a cons cell. -/
lemma jsHas_cons {V : Type} (a : String × V) (t : List (String × V)) (k : String) :
    jsHas (a :: t) k = if a.1 = k then true else jsHas t k := by
  by_cases h : a.1 = k <;> simp [jsHas, List.find?_cons, h]

/-- Unfolding deletion over a cons cell. -/
lemma jsDel_cons {V : Type} (a : String × V) (t : List (String × V)) (k : String) :
    jsDel (a :: t) k = if a.1 = k then jsDel t k else a :: jsDel t k := by
  by_cases h : a.1 = k <;> simp [jsDel, List.filter_cons, h]

/-- A lookup succeeds exactly when the key is present. -/
lemma jsGet_isSome_eq_jsHas {V : Type} (o : List (String × V)) (k : String) :
    (jsGet o k).isSome = jsHas o k := by
  simp [jsGet, jsHas]

/-- Deleting a key removes it. -/
lemma jsHas_del_self {V : Type} (o : List (String × V)) (k : String) :
    jsHas (jsDel o k) k = false := by
  induction o with
  | nil => rfl
  | cons a t ih =>
    rw [jsDel_cons]
    by_cases h : a.1 = k
    · rw [if_pos h]; exact ih
    · rw [if_neg h, jsHas_cons, if_neg h]; exact ih

/-- Deleting one key leaves membership of other keys untouched. -/
lemma jsHas_del_ne {V : Type} (o : List (String × V)) (k k' : String)
    (hne : k ≠ k') : jsHas (jsDel o k) k' = jsHas o k' := by
  induction o with
  | nil => rfl
  | cons a t ih =>
    rw [jsDel_cons]
    by_cases h : a.1 = k
    · have h2 : ¬(a.1 = k') := by rw [h]; exact hne
      rw [if_pos h, jsHas_cons, if_neg h2]; exact ih
    · rw [if_neg h, jsHas_cons, jsHas_cons]
      by_cases h2 : a.1 = k'
      · rw [if_pos h2, if_pos h2]
      · rw [if_neg h2, if_neg h2]; exact ih

/-- Deleting one key leaves lookups of other keys untouched. -/
lemma jsGet_del_ne {V : Type} (o : List (String × V)) (k k' : String)
    (hne : k ≠ k') : jsGet (jsDel o k) k' = jsGet o k' := by
  induction o with
  | nil => rfl
  | cons a t ih =>
    rw [jsDel_cons]
    by_cases h : a.1 = k
    · have h2 : ¬(a.1 = k') := by rw [h]; exact hne
      rw [if_pos h, jsGet_cons, if_neg h2]; exact ih
    · rw [if_neg h, jsGet_cons, jsGet_cons]
      by_cases h2 : a.1 = k'
      · rw [if_pos h2, if_pos h2]
      · rw [if_neg h2, if_neg h2]; exact ih

/-- In-place update binds the key to the new value. -/
lemma jsGet_map_set {V : Type} (o : List (String × V)) (k : String) (v : V)
    (hh : jsHas o k = true) :
    jsGet (o.map (fun p => if p.1 = k then (k, v) else p)) k = some v := by
  induction o with
  | nil => simp [jsHas] at hh
  | cons a t ih =>
    rw [List.map_cons]
    by_cases h : a.1 = k
    · rw [if_pos h, jsGet_cons, if_pos rfl]
    · rw [jsHas_cons, if_neg h] at hh
      rw [if_neg h, jsGet_cons, if_neg h]
      exact ih hh

/-- Appending a fresh binding makes it the one found. -/
lemma jsGet_append_set {V : Type} (o : List (String × V)) (k : String) (v : V)
    (hh : jsHas o k = false) :
    jsGet (o ++ [(k, v)]) k = some v := by
  induction o with
  | nil => rw [List.nil_append, jsGet_cons, if_pos rfl]
  | cons a t ih =>
    rw [jsHas_cons] at hh
    by_cases h : a.1 = k
    · rw [if_pos h] at hh; exact absurd hh (by simp)
    · rw [if_neg h] at hh
      rw [List.cons_append, jsGet_cons, if_neg h]
      exact ih hh

/-- After assignment the key is bound to the assigned value. -/
lemma jsGet_set_self {V : Type} (o : List (String × V)) (k : String) (v : V) :
    jsGet (jsSet o k v) k = some v := by
  unfold jsSet
  by_cases hh : jsHas o k = true
  · rw [if_pos hh]; exact jsGet_map_set o k v hh
  · rw [if_neg hh]
    exact jsGet_append_set o k v (Bool.not_eq_true _ ▸ hh)

/-- After assignment the key is present. -/
lemma jsHas_set_self {V : Type} (o : List (String × V)) (k : String) (v : V) :
    jsHas (jsSet o k v) k = true := by
  rw [← jsGet_isSome_eq_jsHas, jsGet_set_self]
  rfl

/-- Equation for the rewriting branch of normalizeToolParams. -/
lemma normalizeToolParams_eq_pos {V : Type} (toolName : String)
    (args : List (String × V)) (v : V)
    (h : (fileTools.contains toolName && jsHas args "path" &&
      !jsHas args "file_path") = true)
    (hv : jsGet args "path" = some v) :
    normalizeToolParams toolName args = jsDel (jsSet args "file_path" v) "path" := by
  simp only [normalizeToolParams, h, if_true, hv]

/-- Equation for the pass-through branch of normalizeToolParams. -/
lemma normalizeToolParams_eq_neg {V : Type} (toolName : String)
    (args : List (String × V))
    (h : (fileTools.contains toolName && jsHas args "path" &&
      !jsHas args "file_path") = false) :
    normalizeToolParams toolName args = args := by
  simp only [normalizeToolParams, h, Bool.false_eq_true, if_false]

/-- C8: normalizeToolParams is a pure alias rewrite.  For a file tool with
a path key and no file_path key, the path value moves under file_path and
the path key disappears; every other tool/args combination is returned
unchanged; and the function is idempotent. -/
theorem normalizeToolParams_alias_rewrite :
    (∀ (V : Type) (toolName : String) (args : List (String × V)),
      fileTools.contains toolName = true → jsHas args "path" = true →
      jsHas args "file_path" = false →
      jsGet (normalizeToolParams toolName args) "file_path" = jsGet args "path" ∧
      jsHas (normalizeToolParams toolName args) "path" = false) ∧
    (∀ (V : Type) (toolName : String) (args : List (String × V)),
      fileTools.contains toolName = false ∨ jsHas args "path" = false ∨
        jsHas args "file_path" = true →
      normalizeToolParams toolName args = args) ∧
    (∀ (V : Type) (toolName : String) (args : List (String × V)),
      normalizeToolParams toolName (normalizeToolParams toolName args) =
        normalizeToolParams toolName args) := by
  refine ⟨?_, ?_, ?_⟩
  · intro V toolName args htool hpath hfile
    have hsome : (jsGet args "path").isSome = true := by
      rw [jsGet_isSome_eq_jsHas]; exact hpath
    obtain ⟨v, hv⟩ := Option.isSome_iff_exists.mp hsome
    have hcond : (fileTools.contains toolName && jsHas args "path" &&
        !jsHas args "file_path") = true := by
      rw [htool, hpath, hfile]; rfl
    rw [normalizeToolParams_eq_pos toolName args v hcond hv]
    constructor
    · rw [jsGet_del_ne _ "path" "file_path" (by decide),
        jsGet_set_self args "file_path" v, hv]
    · exact jsHas_del_self _ "path"
  · intro V toolName args hcase
    refine normalizeToolParams_eq_neg toolName args ?_
    rcases hcase with h | h | h <;> rw [h] <;> simp
  · intro V toolName args
    by_cases hcond : (fileTools.contains toolName && jsHas args "path" &&
        !jsHas args "file_path") = true
    · have hpath : jsHas args "path" = true := by
        simp only [Bool.and_eq_true] at hcond; exact hcond.1.2
      have hsome : (jsGet args "path").isSome = true := by
        rw [jsGet_isSome_eq_jsHas]; exact hpath
      obtain ⟨v, hv⟩ := Option.isSome_iff_exists.mp hsome
      have hres := normalizeToolParams_eq_pos toolName args v hcond hv
      have hfile2 : jsHas (normalizeToolParams toolName args) "file_path" = true := by
        rw [hres, jsHas_del_ne _ "path" "file_path" (by decide)]
        exact jsHas_set_self args "file_path" v
      refine normalizeToolParams_eq_neg toolName _ ?_
      rw [hfile2]; simp
    · have hres := normalizeToolParams_eq_neg toolName args
        (Bool.not_eq_true _ ▸ hcond)
      rw [hres, hres]

/-- C8 witness: normalizeToolParams moves path to file_path for write_file
and leaves a non-file tool untouched, at a concrete argument object. -/
theorem normalizeToolParams_alias_rewrite_witness :
    (jsGet (normalizeToolParams "write_file" [("path", 7)]) "file_path" =
        jsGet [("path", 7)] "path" ∧
      jsHas (normalizeToolParams "write_file" [("path", 7)]) "path" = false) ∧
    normalizeToolParams "list_dir" [("path", (7 : Nat))] = [("path", 7)] :=
  ⟨normalizeToolParams_alias_rewrite.1 Nat "write_file" [("path", 7)]
      (by decide) (by decide) (by decide),
   normalizeToolParams_alias_rewrite.2.1 Nat "list_dir" [("path", 7)]
      (Or.inl (by decide))⟩

/-- Flattening the mapped responseParts of a batch is the one-level
flatten of the per-call part lists. -/
lemma mergePartListUnions_map (calls : List CompletedToolCall) :
    mergePartListUnions (calls.map (fun tc => (respPartsOf tc).getD (.list []))) =
      calls.flatMap respPartsListOf := by
  induction calls with
  | nil => rfl
  | cons tc rest ih =>
    simp only [mergePartListUnions, List.map_cons, List.flatMap_cons] at ih ⊢
    rw [ih]
    rfl

/-- On a batch of ready-to-submit non-client calls both filters of
handleCompletedTools are the identity. -/
lemma handleCompletedTools_filters (calls : List CompletedToolCall)
    (h1 : ∀ tc ∈ calls, readyToSubmit tc = true ∧
      tc.request.isClientInitiated = false) :
    (calls.filter readyToSubmit).filter
      (fun t => !t.request.isClientInitiated) = calls := by
  have ha : calls.filter readyToSubmit = calls :=
    List.filter_eq_self.mpr (fun a ha => (h1 a ha).1)
  rw [ha]
  exact List.filter_eq_self.mpr (fun a ha2 => by rw [(h1 a ha2).2]; rfl)

/-- The return value of the merger: undefined exactly on the length-zero
and all-cancelled branches, otherwise the flattened responseParts of the
non-client terminal calls. -/
lemma handleCompletedTools_returned (calls : List CompletedToolCall) (cp : Bool) :
    (handleCompletedTools calls cp).returned =
      if (geminiToolsOf calls).all (fun tc => tc.status = .cancelled) = true then
        none
      else
        some (mergePartListUnions ((geminiToolsOf calls).map
          (fun tc => (respPartsOf tc).getD (.list [])))) := by
  simp only [handleCompletedTools, geminiToolsOf]
  split_ifs with h1 h2 <;>
    first
    | rfl
    | (have hnil := List.length_eq_zero.mp h1
       rw [hnil] at h2
       exact absurd rfl h2)

/-- C6: on a batch of non-client-initiated terminal calls with defined
responseParts that is not all-cancelled, the merger returns the per-call
responseParts flattened exactly one level, in batch order, with non-array
entries (including raw strings) kept as-is, and touches no history. -/
theorem handleCompletedTools_flattening (calls : List CompletedToolCall)
    (clientPresent : Bool)
    (h1 : ∀ tc ∈ calls, readyToSubmit tc = true ∧
      tc.request.isClientInitiated = false)
    (h2 : ∃ tc ∈ calls, ¬(tc.status = .cancelled)) :
    (handleCompletedTools calls clientPresent).returned =
      some (calls.flatMap respPartsListOf) ∧
    (handleCompletedTools calls clientPresent).historyAppends = [] := by
  obtain ⟨tcw, htcw, hstw⟩ := h2
  have hfilters := handleCompletedTools_filters calls h1
  have hgem : geminiToolsOf calls = calls := hfilters
  have hnotall : (calls.all (fun tc => tc.status = ToolCallStatus.cancelled)) = false := by
    rw [Bool.eq_false_iff]
    intro hall
    exact hstw (by simpa using (List.all_eq_true.mp hall tcw htcw))
  constructor
  · rw [handleCompletedTools_returned, hgem, hnotall]
    simp only [Bool.false_eq_true, if_false]
    rw [mergePartListUnions_map]
  · have hlen : ¬(calls.length = 0) := by
      intro hl
      rw [List.length_eq_zero] at hl
      subst hl
      exact absurd htcw (List.not_mem_nil tcw)
    simp only [handleCompletedTools, hfilters, hlen, if_false, hnotall,
      Bool.false_eq_true]

/-- C6 witness: the concrete batch of the spec example flattens to the
expected four entries in order, the raw string kept unwrapped. -/
theorem handleCompletedTools_flattening_witness :
    (handleCompletedTools
      [⟨⟨"c1", "t1", false, "p"⟩, .success, some ⟨some (.list [.textObj "a"])⟩⟩,
       ⟨⟨"c2", "t2", false, "p"⟩, .success, some ⟨some (.single (.str "b"))⟩⟩,
       ⟨⟨"c3", "t3", false, "p"⟩, .success, some ⟨some (.list [.textObj "c", .textObj "d"])⟩⟩]
      true).returned =
      some [.textObj "a", .str "b", .textObj "c", .textObj "d"] :=
  (handleCompletedTools_flattening
    [⟨⟨"c1", "t1", false, "p"⟩, .success, some ⟨some (.list [.textObj "a"])⟩⟩,
     ⟨⟨"c2", "t2", false, "p"⟩, .success, some ⟨some (.single (.str "b"))⟩⟩,
     ⟨⟨"c3", "t3", false, "p"⟩, .success, some ⟨some (.list [.textObj "c", .textObj "d"])⟩⟩]
    true (by decide) (by decide)).1

/-- If every call of the batch contributes exactly one flattened entry,
the flatten has one entry per call. -/
lemma flatMap_singletons_length (calls : List CompletedToolCall)
    (h : ∀ tc ∈ calls, (respPartsListOf tc).length = 1) :
    (calls.flatMap respPartsListOf).length = calls.length := by
  induction calls with
  | nil => rfl
  | cons tc rest ih =>
    have h1 := h tc (List.mem_cons_self tc rest)
    have h2 := ih (fun a ha => h a (List.mem_cons_of_mem tc ha))
    simp [h1, h2, Nat.add_comm]

/-- C2 counterexample: one cancelled call whose responseParts is an array
of two parts produces two history appends, not one per call, so the
history-append count is not the number of cancelled calls. -/
theorem handleCompletedTools_allCancelled_counterexample :
    (handleCompletedTools
      [⟨⟨"x1", "tool", false, "p"⟩, .cancelled,
        some ⟨some (.list [.textObj "x", .textObj "y"])⟩⟩]
      true).historyAppends.length = 2 ∧
    ([(⟨⟨"x1", "tool", false, "p"⟩, .cancelled,
        some ⟨some (.list [.textObj "x", .textObj "y"])⟩⟩ : CompletedToolCall)]).length = 1 ∧
    ¬((handleCompletedTools
      [⟨⟨"x1", "tool", false, "p"⟩, .cancelled,
        some ⟨some (.list [.textObj "x", .textObj "y"])⟩⟩]
      true).historyAppends.length =
      ([(⟨⟨"x1", "tool", false, "p"⟩, .cancelled,
        some ⟨some (.list [.textObj "x", .textObj "y"])⟩⟩ : CompletedToolCall)]).length) := by
  refine ⟨?_, ?_, ?_⟩ <;> decide

/-- C2 (amended): on a non-empty batch whose non-client terminal calls are
all cancelled, the merger returns undefined and, with a client present,
appends one user-role history turn per one-level-flattened response-part
entry, wrapping string entries as text parts; when every call contributes
a single non-array response part this is exactly one append per call. -/
theorem handleCompletedTools_allCancelled (calls : List CompletedToolCall)
    (h1 : ∀ tc ∈ calls, readyToSubmit tc = true ∧
      tc.request.isClientInitiated = false ∧ tc.status = .cancelled)
    (h2 : calls ≠ []) :
    (handleCompletedTools calls true).returned = none ∧
    (handleCompletedTools calls true).historyAppends =
      (calls.flatMap respPartsListOf).map
        (fun r => HistoryItem.mk "user" (wrapHistoryEntry r)) ∧
    ((∀ tc ∈ calls, (respPartsListOf tc).length = 1) →
      (handleCompletedTools calls true).historyAppends.length = calls.length) := by
  have hfilters := handleCompletedTools_filters calls
    (fun a ha => ⟨(h1 a ha).1, (h1 a ha).2.1⟩)
  have hlen : ¬(calls.length = 0) := by
    intro hl
    rw [List.length_eq_zero] at hl
    exact h2 hl
  have hall : (calls.all (fun tc => tc.status = ToolCallStatus.cancelled)) = true :=
    List.all_eq_true.mpr (fun tc htc => by simp [(h1 tc htc).2.2])
  have happ : (handleCompletedTools calls true).historyAppends =
      (calls.flatMap respPartsListOf).map
        (fun r => HistoryItem.mk "user" (wrapHistoryEntry r)) := by
    simp only [handleCompletedTools, hfilters, hlen, if_false, hall, if_true]
  refine ⟨?_, happ, ?_⟩
  · simp only [handleCompletedTools, hfilters, hlen, if_false, hall, if_true]
  · intro hsing
    rw [happ, List.length_map]
    exact flatMap_singletons_length calls hsing

/-- C2 witness: one cancelled call with a single raw-string response part
yields undefined and exactly one user-role history turn with the string
wrapped as a text part. -/
theorem handleCompletedTools_allCancelled_witness :
    (handleCompletedTools
      [⟨⟨"w1", "tool", false, "p"⟩, .cancelled, some ⟨some (.single (.str "s"))⟩⟩]
      true).returned = none ∧
    (handleCompletedTools
      [⟨⟨"w1", "tool", false, "p"⟩, .cancelled, some ⟨some (.single (.str "s"))⟩⟩]
      true).historyAppends = [⟨"user", [.textObj "s"]⟩] ∧
    (handleCompletedTools
      [⟨⟨"w1", "tool", false, "p"⟩, .cancelled, some ⟨some (.single (.str "s"))⟩⟩]
      true).historyAppends.length = 1 := by
  have h := handleCompletedTools_allCancelled
    [⟨⟨"w1", "tool", false, "p"⟩, .cancelled, some ⟨some (.single (.str "s"))⟩⟩]
    (by decide) (by decide)
  exact ⟨h.1, h.2.1, h.2.2 (by decide)⟩

/-- C3: when a non-empty completed batch makes handleCompletedTools return
undefined (exactly when the non-client terminal calls with defined
responseParts are all cancelled, vacuously so when there are none), the
callback reads length of undefined, and the resulting TypeError is caught
and surfaced as a single error UI event carrying the handleCompletedTools
error marker, while no continuation query is submitted. -/
theorem onAllToolCallsComplete_undefined_length :
    (∀ (calls : List CompletedToolCall) (clientPresent : Bool),
      ((handleCompletedTools calls clientPresent).returned = none ↔
        (geminiToolsOf calls).all (fun tc => tc.status = .cancelled) = true)) ∧
    (∀ (calls : List CompletedToolCall) (clientPresent : Bool),
      0 < calls.length →
      (handleCompletedTools calls clientPresent).returned = none →
      (onAllToolCallsComplete calls clientPresent).events =
        [.errorEv ("handleCompletedTools error: " ++ jsUndefinedLengthMsg)] ∧
      (onAllToolCallsComplete calls clientPresent).continuation = none) := by
  constructor
  · intro calls clientPresent
    rw [handleCompletedTools_returned]
    by_cases hall : (geminiToolsOf calls).all
        (fun tc => tc.status = ToolCallStatus.cancelled) = true
    · simp [hall]
    · simp [hall]
  · intro calls clientPresent hpos hnone
    constructor
    · simp only [onAllToolCallsComplete, hpos, if_true, hnone, jsLengthOfOption]
    · simp only [onAllToolCallsComplete, hpos, if_true, hnone, jsLengthOfOption]

/-- C3 witness: a single-call all-cancelled batch produces exactly the
caught-TypeError error event and no continuation. -/
theorem onAllToolCallsComplete_undefined_length_witness :
    (onAllToolCallsComplete
      [⟨⟨"z1", "tool", false, "p"⟩, .cancelled, some ⟨some (.single (.textObj "q"))⟩⟩]
      true).events =
      [.errorEv ("handleCompletedTools error: " ++ jsUndefinedLengthMsg)] ∧
    (onAllToolCallsComplete
      [⟨⟨"z1", "tool", false, "p"⟩, .cancelled, some ⟨some (.single (.textObj "q"))⟩⟩]
      true).continuation = none :=
  onAllToolCallsComplete_undefined_length.2
    [⟨⟨"z1", "tool", false, "p"⟩, .cancelled, some ⟨some (.single (.textObj "q"))⟩⟩]
    true (by decide) (by decide)

/-- When a call carries no execution error, the bound error is none. -/
lemma bindError_eq_none (exec : ReqInfo → ExecResponse) (now : Nat)
    (fc : FunctionCall) (h : hasExecError exec now fc = false) :
    ((exec (mkRequestInfo now fc)).response.bind (fun b => b.error)) = none := by
  cases hb : ((exec (mkRequestInfo now fc)).response.bind (fun b => b.error)) with
  | none => rfl
  | some e =>
    rw [hasExecError, hb] at h
    simp at h

/-- Unfolding one successful call of the dispatch loop. -/
lemma dispatchLoop_success_cons (exec : ReqInfo → ExecResponse) (now : Nat)
    (fc : FunctionCall) (rest : List FunctionCall) (acc : List PartVal)
    (h : hasExecError exec now fc = false) :
    dispatchLoop exec now (fc :: rest) acc =
      (ProgressEvent.toolCallRequest (mkRequestInfo now fc) ::
        ProgressEvent.toolCallFinishCall (mkRequestInfo now fc) ::
        (dispatchLoop exec now rest (acc ++ callNewParts exec now fc)).1,
       mkRequestInfo now fc ::
        (dispatchLoop exec now rest (acc ++ callNewParts exec now fc)).2) := by
  have hb := bindError_eq_none exec now fc h
  cases hresp : (exec (mkRequestInfo now fc)).response with
  | none => simp [dispatchLoop, hresp, callNewParts]
  | some body =>
    have hbe : body.error = none := by rw [hresp] at hb; simpa using hb
    simp [dispatchLoop, hresp, hbe, callNewParts]

/-- Unfolding a failing call of the dispatch loop: the error is reported
and the loop returns at once. -/
lemma dispatchLoop_error_cons (exec : ReqInfo → ExecResponse) (now : Nat)
    (fc : FunctionCall) (rest : List FunctionCall) (acc : List PartVal)
    (body : ExecResponseBody) (err : JsError)
    (hresp : (exec (mkRequestInfo now fc)).response = some body)
    (herr : body.error = some err) :
    dispatchLoop exec now (fc :: rest) acc =
      ([.toolCallRequest (mkRequestInfo now fc),
        .toolCallError (mkRequestInfo now fc) (execErrorMsg fc.name body err)],
       [mkRequestInfo now fc]) := by
  simp [dispatchLoop, hresp, herr]

/-- The dispatch loop on an all-successful batch, for any accumulator. -/
lemma dispatchLoop_all_success (exec : ReqInfo → ExecResponse) (now : Nat)
    (fcs : List FunctionCall) (acc : List PartVal)
    (h : ∀ c ∈ fcs, hasExecError exec now c = false) :
    dispatchLoop exec now fcs acc =
      (fcs.flatMap (successEvents exec now) ++
        [.toolCallFinishAll (acc ++ fcs.flatMap (callNewParts exec now))],
       fcs.map (mkRequestInfo now)) := by
  induction fcs generalizing acc with
  | nil => simp [dispatchLoop]
  | cons fc rest ih =>
    rw [dispatchLoop_success_cons exec now fc rest acc
      (h fc (List.mem_cons_self _ _))]
    rw [ih (acc ++ callNewParts exec now fc)
      (fun c hc => h c (List.mem_cons_of_mem _ hc))]
    simp [successEvents, List.append_assoc]

/-- The dispatch loop fail-fast shape, for any accumulator. -/
lemma dispatchLoop_fail_fast (exec : ReqInfo → ExecResponse) (now : Nat)
    (pre : List FunctionCall) (fc : FunctionCall) (post : List FunctionCall)
    (acc : List PartVal) (body : ExecResponseBody) (err : JsError)
    (hresp : (exec (mkRequestInfo now fc)).response = some body)
    (herr : body.error = some err) :
    (∀ c ∈ pre, hasExecError exec now c = false) →
    dispatchLoop exec now (pre ++ fc :: post) acc =
      (pre.flatMap (successEvents exec now) ++
        [.toolCallRequest (mkRequestInfo now fc),
         .toolCallError (mkRequestInfo now fc) (execErrorMsg fc.name body err)],
       pre.map (mkRequestInfo now) ++ [mkRequestInfo now fc]) := by
  induction pre generalizing acc with
  | nil =>
    intro _
    simpa using dispatchLoop_error_cons exec now fc post acc body err hresp herr
  | cons c cs ih =>
    intro hpre
    rw [List.cons_append, dispatchLoop_success_cons exec now c (cs ++ fc :: post)
      acc (hpre c (List.mem_cons_self _ _))]
    rw [ih (acc ++ callNewParts exec now c)
      (fun d hd => hpre d (List.mem_cons_of_mem _ hd))]
    simp [successEvents, List.append_assoc]

/-- C5: one call at a time in order.  If the i-th call result carries an
error, a tool_call_error event is reported for that call and the function
returns at once without handing any later call to the execution primitive;
on full success a final tool_call_finish event carries the aggregated
response parts of the whole batch. -/
theorem processGeminiFunctionCalls_fail_fast :
    (∀ (exec : ReqInfo → ExecResponse) (now : Nat) (pre : List FunctionCall)
        (fc : FunctionCall) (post : List FunctionCall) (body : ExecResponseBody)
        (err : JsError),
      (∀ c ∈ pre, hasExecError exec now c = false) →
      (exec (mkRequestInfo now fc)).response = some body →
      body.error = some err →
      processGeminiFunctionCalls exec now (pre ++ fc :: post) =
        (pre.flatMap (successEvents exec now) ++
          [.toolCallRequest (mkRequestInfo now fc),
           .toolCallError (mkRequestInfo now fc) (execErrorMsg fc.name body err)],
         pre.map (mkRequestInfo now) ++ [mkRequestInfo now fc])) ∧
    (∀ (exec : ReqInfo → ExecResponse) (now : Nat) (fcs : List FunctionCall),
      (∀ c ∈ fcs, hasExecError exec now c = false) →
      processGeminiFunctionCalls exec now fcs =
        (fcs.flatMap (successEvents exec now) ++
          [.toolCallFinishAll (fcs.flatMap (callNewParts exec now))],
         fcs.map (mkRequestInfo now))) := by
  constructor
  · intro exec now pre fc post body err hpre hresp herr
    rw [processGeminiFunctionCalls,
      dispatchLoop_fail_fast exec now pre fc post [] body err hresp herr hpre]
  · intro exec now fcs h
    rw [processGeminiFunctionCalls, dispatchLoop_all_success exec now fcs [] h]
    simp

/-- A concrete execution oracle for which the second call fails. -/
def execSample : ReqInfo → ExecResponse := fun r =>
  if r.callId = "2" then ⟨some ⟨some ⟨"boom"⟩, none, none⟩⟩
  else ⟨some ⟨none, none, some (.single (.textObj "ok"))⟩⟩

/-- C5 witness: with three queued calls whose second fails, the trace ends
in the tool_call_error for call 2 and the execution primitive receives
only the first two requests. -/
theorem processGeminiFunctionCalls_fail_fast_witness :
    processGeminiFunctionCalls execSample 0
      ([⟨some "1", "t1", none, "p"⟩] ++ ⟨some "2", "t2", none, "p"⟩ ::
        [⟨some "3", "t3", none, "p"⟩]) =
      ([(⟨some "1", "t1", none, "p"⟩ : FunctionCall)].flatMap (successEvents execSample 0) ++
        [.toolCallRequest (mkRequestInfo 0 ⟨some "2", "t2", none, "p"⟩),
         .toolCallError (mkRequestInfo 0 ⟨some "2", "t2", none, "p"⟩)
           (execErrorMsg "t2" ⟨some ⟨"boom"⟩, none, none⟩ ⟨"boom"⟩)],
       [(⟨some "1", "t1", none, "p"⟩ : FunctionCall)].map (mkRequestInfo 0) ++
        [mkRequestInfo 0 ⟨some "2", "t2", none, "p"⟩]) :=
  processGeminiFunctionCalls_fail_fast.1 execSample 0
    [⟨some "1", "t1", none, "p"⟩] ⟨some "2", "t2", none, "p"⟩
    [⟨some "3", "t3", none, "p"⟩] ⟨some ⟨"boom"⟩, none, none⟩ ⟨"boom"⟩
    (by decide) (by decide) (by decide)

/-- The detection flag of one sink pass is exactly the presence of an
invalid-stream message. -/
lemma sinkPass_detected (rc : Nat) (msgs : List HMsg) :
    (sinkPass rc msgs).2.2 = hasInvalidSignal msgs := by
  induction msgs with
  | nil => rfl
  | cons m rest ih => cases m <;> simp [sinkPass, hasInvalidSignal, ih]

/-- One retry step of handleMessage under an invalid-stream signal with
budget remaining, live query and no abort. -/
lemma handleMessage_step_retry (attempts : Nat → List HMsg) (promptId : String)
    (rc : Nat) (hdet : hasInvalidSignal (attempts rc) = true)
    (hrc : rc < MAX_INVALID_STREAM_RETRIES) :
    (handleMessage attempts true false promptId rc).retries =
      ⟨RETRY_DELAY_MS, promptId⟩ ::
        (handleMessage attempts true false promptId (rc + 1)).retries ∧
    (handleMessage attempts true false promptId rc).finalAttempt =
      (handleMessage attempts true false promptId (rc + 1)).finalAttempt := by
  have hcond : (sinkPass rc (attempts rc)).2.2 = true ∧
      rc < MAX_INVALID_STREAM_RETRIES ∧ (true : Bool) = true ∧
      (false : Bool) = false :=
    ⟨by rw [sinkPass_detected]; exact hdet, hrc, rfl, rfl⟩
  constructor <;> (rw [handleMessage, dif_pos hcond])

/-- handleMessage does not retry once the budget is exhausted. -/
lemma handleMessage_stop_at_budget (attempts : Nat → List HMsg)
    (promptId : String) (rc : Nat) (hrc : ¬(rc < MAX_INVALID_STREAM_RETRIES)) :
    (handleMessage attempts true false promptId rc).retries = [] ∧
    (handleMessage attempts true false promptId rc).finalAttempt = rc := by
  have hcond : ¬((sinkPass rc (attempts rc)).2.2 = true ∧
      rc < MAX_INVALID_STREAM_RETRIES ∧ (true : Bool) = true ∧
      (false : Bool) = false) := fun hc => hrc hc.2.1
  constructor <;> (rw [handleMessage, dif_neg hcond])

/-- The last element of a list ending in a given entry. -/
lemma getLast_append_singleton (l : List AgentUiEvent) (a : AgentUiEvent) :
    (l ++ [a]).getLast? = some a := by
  induction l with
  | nil => rfl
  | cons b t ih =>
    rw [List.cons_append, List.getLast?_cons, ih]
    rfl

/-- C4: with invalid-stream signals on three consecutive attempts, a live
query and no abort, the agent performs exactly the 2 budgeted retries,
each a fresh-stream request for the same promptId after the fixed
RETRY_DELAY_MS delay with the retry counter incremented, never a 3rd; the
turn then ends with a finish event. -/
theorem invalid_stream_retry_budget (attempts : Nat → List HMsg)
    (promptId : String)
    (h : ∀ i, i ≤ 2 → hasInvalidSignal (attempts i) = true) :
    MAX_INVALID_STREAM_RETRIES = 2 ∧ RETRY_DELAY_MS = 1000 ∧
    (handleMessage attempts true false promptId 0).retries =
      [⟨1000, promptId⟩, ⟨1000, promptId⟩] ∧
    (handleMessage attempts true false promptId 0).finalAttempt = 2 ∧
    (submitQueryEvents attempts true false promptId).getLast? =
      some AgentUiEvent.finish := by
  have s0 := handleMessage_step_retry attempts promptId 0 (h 0 (by omega)) (by decide)
  have s1 := handleMessage_step_retry attempts promptId 1 (h 1 (by omega)) (by decide)
  have s2 := handleMessage_stop_at_budget attempts promptId 2 (by decide)
  refine ⟨rfl, rfl, ?_, ?_, ?_⟩
  · rw [s0.1, s1.1, s2.1]
    rfl
  · rw [s0.2, s1.2, s2.2]
  · rw [submitQueryEvents, List.getLast?_cons]
    rw [getLast_append_singleton]
    simp

/-- C4 witness: a stream that raises an invalid-stream signal on every
attempt yields exactly the two budgeted fresh-stream requests. -/
theorem invalid_stream_retry_budget_witness :
    (handleMessage (fun _ => [HMsg.invalidStream (some true)]) true false
        "pid" 0).retries = [⟨1000, "pid"⟩, ⟨1000, "pid"⟩] ∧
    (handleMessage (fun _ => [HMsg.invalidStream (some true)]) true false
        "pid" 0).finalAttempt = 2 :=
  ⟨(invalid_stream_retry_budget (fun _ => [HMsg.invalidStream (some true)])
      "pid" (fun _ _ => rfl)).2.2.1,
   (invalid_stream_retry_budget (fun _ => [HMsg.invalidStream (some true)])
      "pid" (fun _ _ => rfl)).2.2.2.1⟩

/-- C9: the fallback-model handler policy.  Without an active multi-key
manager it answers retry_once; with one it rotates, answering retry_once
while keys remain and the stopping intent when they are exhausted; any
exception inside the handler is caught and mapped to retry_once. -/
theorem fallbackModelHandler_policy :
    (∀ agent : Option AgentView, agent.bind (·.apiKeyManager) = none →
      fallbackModelHandler agent = (.retry_once, false)) ∧
    (∀ (agent : Option AgentView) (m : ApiKeyManagerView),
      agent.bind (·.apiKeyManager) = some m →
      m.hasMultipleKeysResult = .ok false →
      fallbackModelHandler agent = (.retry_once, false)) ∧
    (∀ (agent : Option AgentView) (m : ApiKeyManagerView),
      agent.bind (·.apiKeyManager) = some m →
      m.hasMultipleKeysResult = .ok true → m.rotateKeyResult = .ok true →
      fallbackModelHandler agent = (.retry_once, true)) ∧
    (∀ (agent : Option AgentView) (m : ApiKeyManagerView),
      agent.bind (·.apiKeyManager) = some m →
      m.hasMultipleKeysResult = .ok true → m.rotateKeyResult = .ok false →
      fallbackModelHandler agent = (.stopIntent, true)) ∧
    (∀ (agent : Option AgentView) (m : ApiKeyManagerView) (e : String),
      agent.bind (·.apiKeyManager) = some m →
      m.hasMultipleKeysResult = .error e →
      fallbackModelHandler agent = (.retry_once, false)) ∧
    (∀ (agent : Option AgentView) (m : ApiKeyManagerView) (e : String),
      agent.bind (·.apiKeyManager) = some m →
      m.hasMultipleKeysResult = .ok true → m.rotateKeyResult = .error e →
      fallbackModelHandler agent = (.retry_once, true)) := by
  refine ⟨?_, ?_, ?_, ?_, ?_, ?_⟩
  · intro agent hm
    simp [fallbackModelHandler, hm]
  · intro agent m hm h1
    simp [fallbackModelHandler, hm, h1]
  · intro agent m hm h1 h2
    simp [fallbackModelHandler, hm, h1, h2]
  · intro agent m hm h1 h2
    simp [fallbackModelHandler, hm, h1, h2]
  · intro agent m e hm h1
    simp [fallbackModelHandler, hm, h1]
  · intro agent m e hm h1 h2
    simp [fallbackModelHandler, hm, h1, h2]

/-- C9 witness: the policy at a concrete agent with a two-outcome
manager, at a missing manager, and at a throwing rotate call. -/
theorem fallbackModelHandler_policy_witness :
    fallbackModelHandler none = (.retry_once, false) ∧
    fallbackModelHandler (some ⟨some ⟨.ok true, .ok true⟩⟩) = (.retry_once, true) ∧
    fallbackModelHandler (some ⟨some ⟨.ok true, .ok false⟩⟩) = (.stopIntent, true) ∧
    fallbackModelHandler (some ⟨some ⟨.ok true, .error "boom"⟩⟩) = (.retry_once, true) :=
  ⟨fallbackModelHandler_policy.1 none rfl,
   fallbackModelHandler_policy.2.2.1 (some ⟨some ⟨.ok true, .ok true⟩⟩)
     ⟨.ok true, .ok true⟩ rfl rfl rfl,
   fallbackModelHandler_policy.2.2.2.1 (some ⟨some ⟨.ok true, .ok false⟩⟩)
     ⟨.ok true, .ok false⟩ rfl rfl rfl,
   fallbackModelHandler_policy.2.2.2.2.2 (some ⟨some ⟨.ok true, .error "boom"⟩⟩)
     ⟨.ok true, .error "boom"⟩ "boom" rfl rfl rfl⟩

end NeuroUI
